import Mathlib

/-!
# Up/down counter with debounced buttons and packed-digit display (`counter.c`)

A shallow embedding of the polling loop of `main` in `src/counter.c`.

Machine integers are natural numbers; every place where the C code narrows a value
to `uint16_t` is written as an explicit `% 65536`.  The local variables of `main`
that survive from one loop iteration to the next form the record `State`; one
iteration of `while (1)` is the function `loop_body`, which takes the value returned
by `mmio_read32(PIO_BASE)` in that iteration as its argument.
-/

namespace Counter

/-- The address constant `SEVENSEG_BASE` (line 11). -/
def SEVENSEG_BASE : Nat := 0x30058

/-- The locals of `main` that are live across iterations of the polling loop
(lines 31-34).  `display` and `last_printed` are `uint16_t`, the other three are
`uint32_t`. -/
structure State where
  display : Nat
  last_printed : Nat
  btn_state : Nat
  btn_prev : Nat
  debounced : Nat
  deriving DecidableEq, Repr

attribute [ext] State

/-- The values of the locals when the polling loop is entered (lines 31-34; the
diagnostic block of lines 40-71 assigns none of them). -/
def init : State :=
  { display := 0, last_printed := 0xFFFF, btn_state := 0, btn_prev := 0, debounced := 0 }

/-- The register writes of the start-up diagnostic block (lines 43-68), in order:
the fixed pattern, the ones digit cycled twice, the debug pattern, then zero. -/
def diagnostic_writes : List Nat :=
  [((1 ||| (2 <<< 4) ||| (3 <<< 8) ||| (4 <<< 12)) % 65536)]
    ++ (List.range 10).map (fun d => (d &&& 0xF) % 65536)
    ++ (List.range 10).map (fun d => (d &&& 0xF) % 65536)
    ++ [0xFFFF, 0x0000]

/-- Lines 77-80: the sample `p` is accepted as the stable reading when it equals the
sample of the preceding iteration; `btn_prev` then becomes `p`. -/
def debounce (s : State) (p : Nat) : State :=
  { s with debounced := if p = s.btn_prev then p else s.debounced, btn_prev := p }

/-- The condition of the `if` on line 86, `(btn_state & 0x1) && !(debounced & 0x1)`. -/
def inc_cond (s : State) : Bool :=
  (s.btn_state &&& 0x1 != 0) && (s.debounced &&& 0x1 == 0)

/-- The condition of the `if` on line 90, `(btn_state & 0x2) && !(debounced & 0x2)`. -/
def dec_cond (s : State) : Bool :=
  (s.btn_state &&& 0x2 != 0) && (s.debounced &&& 0x2 == 0)

/-- Lines 87-88 on the `uint16_t` counter: add one, then wrap to zero at 10000. -/
def increment (display : Nat) : Nat :=
  let d := (display + 1) % 65536
  if d ≥ 10000 then 0 else d

/-- Lines 91-94 on the `uint16_t` counter: zero wraps to 9999, otherwise subtract
one. -/
def decrement (display : Nat) : Nat :=
  if display = 0 then 9999 else (display - 1) % 65536

/-- Lines 86-97: the increment branch, then the decrement branch (which sees the
counter left by the increment branch), then `btn_state = debounced`. -/
def count (s : State) : State :=
  let s1 := if inc_cond s then { s with display := increment s.display } else s
  let s2 := if dec_cond s1 then { s1 with display := decrement s1.display } else s1
  { s2 with btn_state := s2.debounced }

/-- Lines 100-106: the four decimal digits of the counter and their packing into
nibbles, narrowed to `uint16_t`. -/
def packed (display : Nat) : Nat :=
  let d0 := display % 10
  let d1 := (display / 10) % 10
  let d2 := (display / 100) % 10
  let d3 := (display / 1000) % 10
  ((d0 &&& 0xF) ||| ((d1 &&& 0xF) <<< 4) ||| ((d2 &&& 0xF) <<< 8)
    ||| ((d3 &&& 0xF) <<< 12)) % 65536

/-- What one loop iteration does to the outside world: the value stored to
`SEVENSEG_BASE` (line 107) and, when the `printf` of lines 111-112 runs, its two
variable arguments `(display, packed)`. -/
structure Output where
  written : Nat
  logged : Option (Nat × Nat)
  deriving DecidableEq, Repr

/-- Lines 110-114: print when the counter differs from `last_printed`, and remember
the printed value. -/
def report (s : State) : State × Output :=
  if s.display ≠ s.last_printed then
    ({ s with last_printed := s.display },
      { written := packed s.display, logged := some (s.display, packed s.display) })
  else
    (s, { written := packed s.display, logged := none })

/-- One iteration of `while (1)` (lines 74-116) with both of its results: the
next values of the locals and the effects of the iteration. -/
def loop_iteration (s : State) (p : Nat) : State × Output :=
  report (count (debounce s p))

/-- The locals after one iteration of the loop that read the sample `p`. -/
def loop_body (s : State) (p : Nat) : State :=
  (loop_iteration s p).1

/-- The effects of one iteration of the loop that read the sample `p`. -/
def loop_output (s : State) (p : Nat) : Output :=
  (loop_iteration s p).2

/-- Whether the increment branch (line 86) is taken in the iteration that starts
in `s` and reads `p`. -/
def inc_fires (s : State) (p : Nat) : Bool :=
  inc_cond (debounce s p)

/-- Whether the decrement branch (line 90) is taken in the iteration that starts
in `s` and reads `p`. -/
def dec_fires (s : State) (p : Nat) : Bool :=
  dec_cond (debounce s p)

/-- The locals after feeding the samples `ps`, one per iteration, starting in `s`. -/
def run (s : State) : List Nat → State
  | [] => s
  | p :: ps => run (loop_body s p) ps

/-- The locals after each iteration, in order, when the samples `ps` are fed
starting in `s`. -/
def trace (s : State) : List Nat → List State
  | [] => []
  | p :: ps => loop_body s p :: trace (loop_body s p) ps

/-- A raw sample is a value of type `uint32_t`. -/
def is_sample (p : Nat) : Prop := p < 2 ^ 32

instance (p : Nat) : Decidable (is_sample p) := by
  unfold is_sample; infer_instance

/-- The states in which an iteration of the polling loop can start or end: the
initial one and everything obtained from it by iterations reading 32-bit samples. -/
inductive Reachable : State → Prop
  | start : Reachable init
  | cycle (s : State) (p : Nat) : Reachable s → is_sample p → Reachable (loop_body s p)

/-- Bit `i` of `x`, as a number 0 or 1. -/
def bit (x i : Nat) : Nat := x / 2 ^ i % 2

/-- Nibble `i` (bits `4 i` to `4 i + 3`) of `x`. -/
def nibble (x i : Nat) : Nat := x / 16 ^ i % 16

/-- Reading a packed value back as a decimal number: the nibbles weighted by
powers of ten. -/
def decode (x : Nat) : Nat :=
  nibble x 0 + 10 * nibble x 1 + 100 * nibble x 2 + 1000 * nibble x 3

/-- How many of the iterations that read the samples `ps`, starting in `s`, take the
increment branch. -/
def inc_count (s : State) : List Nat → Nat
  | [] => 0
  | p :: ps => (if inc_fires s p then 1 else 0) + inc_count (loop_body s p) ps

/-- How many of the iterations that read the samples `ps`, starting in `s`, take the
decrement branch. -/
def dec_count (s : State) : List Nat → Nat
  | [] => 0
  | p :: ps => (if dec_fires s p then 1 else 0) + dec_count (loop_body s p) ps

/-- Samples that press and release the increment button three times and end with
both buttons released. -/
def three_presses : List Nat := [3, 3, 2, 2, 3, 3, 2, 2, 3, 3, 2, 2, 3, 3]

/-- Samples that press and release the increment button five times, then release
both buttons and press both at once (first of the two equal readings). -/
def five_presses_then_both : List Nat :=
  [3, 3, 2, 2, 3, 3, 2, 2, 3, 3, 2, 2, 3, 3, 2, 2, 3, 3, 2, 2, 3, 3, 0]

/-- Whether two samples have the same bit 0 and the same bit 1. -/
def low_agree (a b : Nat) : Bool :=
  bit a 0 == bit b 0 && bit a 1 == bit b 1

/-- Whether two sample sequences have the same length and agree on bits 0 and 1 in
every cycle. -/
def agree_low : List Nat → List Nat → Bool
  | [], [] => true
  | a :: as, b :: bs => low_agree a b && agree_low as bs
  | _, _ => false

/-- Whether, cycle by cycle, a sample repeats its predecessor in the first sequence
exactly when it does in the second; `pa` and `pb` are the predecessors of the two
heads. -/
def same_repeats_from (pa pb : Nat) : List Nat → List Nat → Bool
  | a :: as, b :: bs => (decide (a = pa) == decide (b = pb)) && same_repeats_from a b as bs
  | _, _ => true

/-- Whether, from the second cycle on, a sample repeats its predecessor in the first
sequence exactly when it does in the second. -/
def same_repeats : List Nat → List Nat → Bool
  | a :: as, b :: bs => same_repeats_from a b as bs
  | _, _ => true

/-- Two states that the counting logic cannot tell apart: the same counter, and the
same bits 0 and 1 in the edge-detector reference and in the stable reading. -/
def same_low (sa sb : State) : Prop :=
  sa.display = sb.display ∧
    bit sa.btn_state 0 = bit sb.btn_state 0 ∧ bit sa.btn_state 1 = bit sb.btn_state 1 ∧
    bit sa.debounced 0 = bit sb.debounced 0 ∧ bit sa.debounced 1 = bit sb.debounced 1

/-- The state after two or more readings of `0b11` from the initial state. -/
def released_state : State :=
  { display := 0, last_printed := 0, btn_state := 3, btn_prev := 3, debounced := 3 }

/-- The state after the increment button has then been held for two or more
readings. -/
def held_state : State :=
  { display := 1, last_printed := 1, btn_state := 2, btn_prev := 2, debounced := 2 }

/-! ## Elementary facts about one iteration -/

theorem debounce_debounced (s : State) (p : Nat) :
    (debounce s p).debounced = if p = s.btn_prev then p else s.debounced := rfl

theorem debounce_btn_state (s : State) (p : Nat) :
    (debounce s p).btn_state = s.btn_state := rfl

theorem debounce_display (s : State) (p : Nat) :
    (debounce s p).display = s.display := rfl

theorem inc_cond_display (s : State) (d : Nat) :
    inc_cond { s with display := d } = inc_cond s := rfl

theorem dec_cond_display (s : State) (d : Nat) :
    dec_cond { s with display := d } = dec_cond s := rfl

theorem count_debounced (s : State) : (count s).debounced = s.debounced := by
  cases hi : inc_cond s <;> cases hd : dec_cond s <;>
    simp [count, hi, hd, dec_cond_display]

theorem count_btn_prev (s : State) : (count s).btn_prev = s.btn_prev := by
  cases hi : inc_cond s <;> cases hd : dec_cond s <;>
    simp [count, hi, hd, dec_cond_display]

theorem count_btn_state (s : State) : (count s).btn_state = s.debounced := by
  cases hi : inc_cond s <;> cases hd : dec_cond s <;>
    simp [count, hi, hd, dec_cond_display]

theorem count_last_printed (s : State) : (count s).last_printed = s.last_printed := by
  cases hi : inc_cond s <;> cases hd : dec_cond s <;>
    simp [count, hi, hd, dec_cond_display]

theorem count_display (s : State) :
    (count s).display =
      (if dec_cond s then decrement (if inc_cond s then increment s.display else s.display)
        else (if inc_cond s then increment s.display else s.display)) := by
  cases hi : inc_cond s <;> cases hd : dec_cond s <;>
    simp [count, hi, hd, dec_cond_display]

theorem report_display (s : State) : (report s).1.display = s.display := by
  unfold report; split <;> rfl

theorem report_debounced (s : State) : (report s).1.debounced = s.debounced := by
  unfold report; split <;> rfl

theorem report_btn_prev (s : State) : (report s).1.btn_prev = s.btn_prev := by
  unfold report; split <;> rfl

theorem report_btn_state (s : State) : (report s).1.btn_state = s.btn_state := by
  unfold report; split <;> rfl

theorem loop_body_debounced (s : State) (p : Nat) :
    (loop_body s p).debounced = if p = s.btn_prev then p else s.debounced := by
  simp only [loop_body, loop_iteration, report_debounced, count_debounced, debounce_debounced]

theorem loop_body_btn_prev (s : State) (p : Nat) : (loop_body s p).btn_prev = p := by
  simp only [loop_body, loop_iteration, report_btn_prev, count_btn_prev]
  rfl

theorem loop_body_btn_state (s : State) (p : Nat) :
    (loop_body s p).btn_state = (loop_body s p).debounced := by
  simp only [loop_body, loop_iteration, report_btn_state, report_debounced, count_btn_state,
    count_debounced]

theorem loop_body_display (s : State) (p : Nat) :
    (loop_body s p).display =
      (if dec_fires s p then
          decrement (if inc_fires s p then increment s.display else s.display)
        else (if inc_fires s p then increment s.display else s.display)) := by
  simp only [loop_body, loop_iteration, report_display, count_display, debounce_display,
    inc_fires, dec_fires]

theorem increment_le (d : Nat) : increment d ≤ 9999 := by
  unfold increment
  simp only
  split <;> omega

theorem decrement_le (d : Nat) (h : d ≤ 9999) : decrement d ≤ 9999 := by
  unfold decrement
  split <;> omega

theorem loop_body_display_le (s : State) (p : Nat) (h : s.display ≤ 9999) :
    (loop_body s p).display ≤ 9999 := by
  rw [loop_body_display]
  have hi : (if inc_fires s p then increment s.display else s.display) ≤ 9999 := by
    split
    · exact increment_le _
    · exact h
  split
  · exact decrement_le _ hi
  · exact hi

theorem trace_display_le (ps : List Nat) :
    ∀ s0 : State, s0.display ≤ 9999 → ∀ s ∈ trace s0 ps, s.display ≤ 9999 := by
  induction ps with
  | nil => intro s0 _ s hs; simp [trace] at hs
  | cons p ps ih =>
    intro s0 h0 s hs
    simp only [trace, List.mem_cons] at hs
    rcases hs with rfl | hs
    · exact loop_body_display_le s0 p h0
    · exact ih (loop_body s0 p) (loop_body_display_le s0 p h0) s hs

/-- In every reachable state the edge-detector reference equals the stable reading. -/
theorem reachable_btn_state (s : State) (h : Reachable s) : s.btn_state = s.debounced := by
  cases h with
  | start => rfl
  | cycle s0 p _ _ => exact loop_body_btn_state s0 p

theorem reachable_display_le (s : State) (h : Reachable s) : s.display ≤ 9999 := by
  induction h with
  | start => decide
  | cycle s0 p _ _ ih => exact loop_body_display_le s0 p ih

/-! ## The digit packing as arithmetic -/

theorem and_fifteen (d : Nat) (h : d < 16) : d &&& 0xF = d := by
  interval_cases d <;> rfl

theorem pack_sum (a b c d : Nat) (ha : a < 16) (hb : b < 16) (hc : c < 16) :
    (a ||| (b <<< 4) ||| (c <<< 8) ||| (d <<< 12)) = a + 16 * b + 256 * c + 4096 * d := by
  have h1 : a ||| (b <<< 4) = 16 * b + a := by
    rw [Nat.shiftLeft_eq, Nat.lor_comm, Nat.mul_comm]
    exact (Nat.mul_add_lt_is_or (show a < 2 ^ 4 by omega) b).symm
  have h2 : (16 * b + a) ||| (c <<< 8) = 256 * c + (16 * b + a) := by
    rw [Nat.shiftLeft_eq, Nat.lor_comm, Nat.mul_comm]
    exact (Nat.mul_add_lt_is_or (show 16 * b + a < 2 ^ 8 by omega) c).symm
  have h3 : (256 * c + (16 * b + a)) ||| (d <<< 12) = 4096 * d + (256 * c + (16 * b + a)) := by
    rw [Nat.shiftLeft_eq, Nat.lor_comm, Nat.mul_comm]
    exact (Nat.mul_add_lt_is_or (show 256 * c + (16 * b + a) < 2 ^ 12 by omega) d).symm
  rw [h1, h2, h3]
  omega

theorem nibbles_of_sum (a b c d : Nat) (ha : a < 16) (hb : b < 16) (hc : c < 16) (hd : d < 16) :
    (a + 16 * b + 256 * c + 4096 * d) % 16 = a ∧
      (a + 16 * b + 256 * c + 4096 * d) / 16 % 16 = b ∧
      (a + 16 * b + 256 * c + 4096 * d) / 256 % 16 = c ∧
      (a + 16 * b + 256 * c + 4096 * d) / 4096 % 16 = d := by
  refine ⟨by omega, by omega, by omega, by omega⟩

theorem digits_sum (v : Nat) (hv : v ≤ 9999) :
    v % 10 + 10 * (v / 10 % 10) + 100 * (v / 100 % 10) + 1000 * (v / 1000 % 10) = v := by
  omega

theorem packed_eq_sum (v : Nat) :
    packed v = v % 10 + 16 * (v / 10 % 10) + 256 * (v / 100 % 10) + 4096 * (v / 1000 % 10) := by
  have h0 : v % 10 < 16 := by omega
  have h1 : v / 10 % 10 < 16 := by omega
  have h2 : v / 100 % 10 < 16 := by omega
  have h3 : v / 1000 % 10 < 16 := by omega
  unfold packed
  simp only [and_fifteen _ h0, and_fifteen _ h1, and_fifteen _ h2, and_fifteen _ h3]
  rw [pack_sum _ _ _ _ h0 h1 h2]
  omega

theorem packed_nibbles (v : Nat) :
    packed v % 16 = v % 10 ∧ packed v / 16 % 16 = v / 10 % 10 ∧
      packed v / 256 % 16 = v / 100 % 10 ∧ packed v / 4096 % 16 = v / 1000 % 10 := by
  rw [packed_eq_sum]
  exact nibbles_of_sum _ _ _ _ (by omega) (by omega) (by omega) (by omega)

/-! ## Bits of the button word and edges -/

theorem and_two (x : Nat) : x &&& 2 = 2 * (x / 2 % 2) := by
  have h1 : (x &&& 2) % 2 = 0 := by
    have : ¬ ((x &&& 2) % 2 = 1) := by
      rw [Nat.and_mod_two_eq_one]; omega
    omega
  have h2 : (x &&& 2) / 2 = x / 2 % 2 := by
    rw [Nat.and_div_two]
    exact Nat.and_one_is_mod _
  omega

theorem bit_zero_eq (x : Nat) : bit x 0 = x % 2 := by
  simp [bit]

theorem bit_one_eq (x : Nat) : bit x 1 = x / 2 % 2 := by
  simp [bit]

/-- The test of line 86 in terms of bit 0 of the two words it reads. -/
theorem inc_cond_iff (s : State) :
    inc_cond s = true ↔ bit s.btn_state 0 = 1 ∧ bit s.debounced 0 = 0 := by
  simp only [inc_cond, Nat.and_one_is_mod, bit_zero_eq, Bool.and_eq_true, bne_iff_ne,
    beq_iff_eq]
  omega

/-- The test of line 90 in terms of bit 1 of the two words it reads. -/
theorem dec_cond_iff (s : State) :
    dec_cond s = true ↔ bit s.btn_state 1 = 1 ∧ bit s.debounced 1 = 0 := by
  simp only [dec_cond, and_two, bit_one_eq, Bool.and_eq_true, bne_iff_ne, beq_iff_eq]
  omega

theorem inc_fires_iff (s : State) (p : Nat) :
    inc_fires s p = true ↔ bit s.btn_state 0 = 1 ∧ bit (loop_body s p).debounced 0 = 0 := by
  rw [inc_fires, inc_cond_iff, loop_body_debounced, debounce_btn_state, debounce_debounced]

theorem dec_fires_iff (s : State) (p : Nat) :
    dec_fires s p = true ↔ bit s.btn_state 1 = 1 ∧ bit (loop_body s p).debounced 1 = 0 := by
  rw [dec_fires, dec_cond_iff, loop_body_debounced, debounce_btn_state, debounce_debounced]

/-- No branch is taken in an iteration that leaves the stable reading equal to the
edge-detector reference. -/
theorem no_edge_of_retained (s : State) (p : Nat)
    (h : (loop_body s p).debounced = s.btn_state) :
    inc_fires s p = false ∧ dec_fires s p = false := by
  constructor
  · cases hf : inc_fires s p
    · rfl
    · have := (inc_fires_iff s p).1 hf
      rw [h] at this
      omega
  · cases hf : dec_fires s p
    · rfl
    · have := (dec_fires_iff s p).1 hf
      rw [h] at this
      omega

theorem reachable_run (ps : List Nat) :
    ∀ s : State, Reachable s → (∀ p ∈ ps, is_sample p) → Reachable (run s ps) := by
  induction ps with
  | nil => intro s h _; exact h
  | cons p ps ih =>
    intro s h hp
    exact ih (loop_body s p) (Reachable.cycle s p h (hp p (List.mem_cons_self p ps)))
      (fun q hq => hp q (List.mem_cons_of_mem p hq))

theorem reachable_btn_prev (s : State) (h : Reachable s) : is_sample s.btn_prev := by
  cases h with
  | start => decide
  | cycle s0 p _ hp => rw [loop_body_btn_prev]; exact hp

/-- Two 32-bit words with the same 32 bits are the same number. -/
theorem eq_of_bits (x y : Nat) (hx : x < 2 ^ 32) (hy : y < 2 ^ 32)
    (h : ∀ i < 32, bit x i = bit y i) : x = y := by
  apply Nat.eq_of_testBit_eq
  intro i
  by_cases hi : i < 32
  · have := h i hi
    simp only [bit] at this
    rw [Nat.testBit_to_div_mod, Nat.testBit_to_div_mod, this]
  · have hpow : 2 ^ 32 ≤ 2 ^ i := Nat.pow_le_pow_right (by decide) (by omega)
    rw [Nat.testBit_lt_two_pow (Nat.lt_of_lt_of_le hx hpow),
      Nat.testBit_lt_two_pow (Nat.lt_of_lt_of_le hy hpow)]

theorem loop_body_last_printed (s : State) (p : Nat) :
    (loop_body s p).last_printed = (loop_body s p).display := by
  simp only [loop_body, loop_iteration, report]
  split
  · rfl
  · rename_i h
    simp only [ne_eq, Decidable.not_not] at h
    exact h.symm

theorem inc_fires_stable (s : State) (p : Nat) (hs : s.btn_state = s.debounced) :
    inc_fires s p = decide (bit s.debounced 0 = 1 ∧ bit (loop_body s p).debounced 0 = 0) := by
  rw [Bool.eq_iff_iff, inc_fires_iff, hs]
  simp

theorem dec_fires_stable (s : State) (p : Nat) (hs : s.btn_state = s.debounced) :
    dec_fires s p = decide (bit s.debounced 1 = 1 ∧ bit (loop_body s p).debounced 1 = 0) := by
  rw [Bool.eq_iff_iff, dec_fires_iff, hs]
  simp

/-- An iteration whose stable reading has both button bits set takes no branch. -/
theorem no_edge_of_released (s : State) (p : Nat) (h : (loop_body s p).debounced = 3) :
    inc_fires s p = false ∧ dec_fires s p = false := by
  constructor
  · cases hf : inc_fires s p
    · rfl
    · have := (inc_fires_iff s p).1 hf
      rw [h] at this
      simp [bit] at this
  · cases hf : dec_fires s p
    · rfl
    · have := (dec_fires_iff s p).1 hf
      rw [h] at this
      simp [bit] at this

theorem display_of_no_edge (s : State) (p : Nat) (hi : inc_fires s p = false)
    (hd : dec_fires s p = false) : (loop_body s p).display = s.display := by
  rw [loop_body_display, hi, hd]
  simp

/-- Reading `0b11` in an iteration that starts with the reference equal to the
stable reading takes no branch. -/
theorem no_edge_of_read_released (s : State) (hs : s.btn_state = s.debounced) :
    inc_fires s 3 = false ∧ dec_fires s 3 = false := by
  by_cases hp : 3 = s.btn_prev
  · exact no_edge_of_released s 3 (by rw [loop_body_debounced, if_pos hp])
  · exact no_edge_of_retained s 3 (by rw [loop_body_debounced, if_neg hp, hs])

/-- Two consecutive readings of `0b11` bring the loop to the state with both buttons
released and the counter untouched. -/
theorem settle_released (s : State) (hs : s.btn_state = s.debounced) :
    loop_body (loop_body s 3) 3 =
      { display := s.display, last_printed := s.display, btn_state := 3, btn_prev := 3,
        debounced := 3 } := by
  have h1 := no_edge_of_read_released s hs
  have d1 : (loop_body s 3).display = s.display := display_of_no_edge s 3 h1.1 h1.2
  have hdb : (loop_body (loop_body s 3) 3).debounced = 3 := by
    rw [loop_body_debounced, loop_body_btn_prev, if_pos rfl]
  have h2 := no_edge_of_released (loop_body s 3) 3 hdb
  have d2 : (loop_body (loop_body s 3) 3).display = s.display := by
    rw [display_of_no_edge _ 3 h2.1 h2.2, d1]
  apply State.ext
  · exact d2
  · rw [loop_body_last_printed, d2]
  · rw [loop_body_btn_state, hdb]
  · exact loop_body_btn_prev _ _
  · exact hdb

/-! ## The effects of one iteration -/

theorem report_written (s : State) : (report s).2.written = packed s.display := by
  unfold report; split <;> rfl

theorem report_logged (s : State) :
    (report s).2.logged =
      if s.display ≠ s.last_printed then some (s.display, packed s.display) else none := by
  unfold report; split <;> rfl

theorem loop_output_written (s : State) (p : Nat) :
    (loop_output s p).written = packed (loop_body s p).display := by
  simp only [loop_output, loop_body, loop_iteration, report_written, report_display]

theorem loop_output_logged (s : State) (p : Nat) :
    (loop_output s p).logged =
      if (loop_body s p).display ≠ s.last_printed then
        some ((loop_body s p).display, (loop_output s p).written)
      else none := by
  rw [loop_output_written]
  simp only [loop_output, loop_body, loop_iteration, report_logged, report_display,
    count_last_printed]
  rfl

theorem packed_lt (v : Nat) : packed v < 65536 := by
  unfold packed
  exact Nat.mod_lt _ (by decide)

/-- The first iteration never counts and leaves the stable reading at zero. -/
theorem first_cycle (p : Nat) :
    loop_body init p =
      { display := 0, last_printed := 0, btn_state := 0, btn_prev := p, debounced := 0 } := by
  have hdb : (loop_body init p).debounced = 0 := by
    rw [loop_body_debounced]
    split
    · rename_i h; exact h
    · rfl
  have hf := no_edge_of_retained init p (by rw [hdb]; rfl)
  have hv : (loop_body init p).display = 0 := display_of_no_edge init p hf.1 hf.2
  apply State.ext
  · exact hv
  · rw [loop_body_last_printed, hv]
  · rw [loop_body_btn_state, hdb]
  · exact loop_body_btn_prev _ _
  · exact hdb

/-! ## Runs -/

theorem run_append (as : List Nat) : ∀ (s : State) (bs : List Nat),
    run s (as ++ bs) = run (run s as) bs := by
  induction as with
  | nil => intro s bs; rfl
  | cons a as ih => intro s bs; exact ih (loop_body s a) bs

theorem run_replicate_fixed (s : State) (p : Nat) (h : loop_body s p = s) :
    ∀ k : Nat, run s (List.replicate k p) = s := by
  intro k
  induction k with
  | zero => rfl
  | succ k ih =>
    show run (loop_body s p) (List.replicate k p) = s
    rw [h, ih]

theorem no_edge_of_zero_ref (s : State) (p : Nat) (h : s.btn_state = 0) :
    inc_fires s p = false ∧ dec_fires s p = false := by
  constructor
  · cases hf : inc_fires s p
    · rfl
    · have := (inc_fires_iff s p).1 hf
      rw [h] at this
      simp [bit] at this
  · cases hf : dec_fires s p
    · rfl
    · have := (dec_fires_iff s p).1 hf
      rw [h] at this
      simp [bit] at this

/-- The counter is still zero after each of the first three iterations. -/
theorem three_cycles (p1 p2 p3 : Nat) :
    (loop_body init p1).display = 0 ∧
      (loop_body (loop_body init p1) p2).display = 0 ∧
      (loop_body (loop_body (loop_body init p1) p2) p3).display = 0 := by
  have v1 : (loop_body init p1).display = 0 := by rw [first_cycle]
  have r1 : (loop_body init p1).btn_state = 0 := by rw [first_cycle]
  have d1 : (loop_body init p1).debounced = 0 := by rw [first_cycle]
  have f2 := no_edge_of_zero_ref (loop_body init p1) p2 r1
  have v2 : (loop_body (loop_body init p1) p2).display = 0 := by
    rw [display_of_no_edge _ p2 f2.1 f2.2, v1]
  have f3 : inc_fires (loop_body (loop_body init p1) p2) p3 = false ∧
      dec_fires (loop_body (loop_body init p1) p2) p3 = false := by
    by_cases h32 : p3 = p2
    · by_cases h21 : p2 = p1
      · apply no_edge_of_retained
        rw [loop_body_debounced, loop_body_btn_prev, if_pos h32, loop_body_btn_state,
          loop_body_debounced, loop_body_btn_prev, if_pos h21, h32]
      · apply no_edge_of_zero_ref
        rw [loop_body_btn_state, loop_body_debounced, loop_body_btn_prev, if_neg h21, d1]
    · apply no_edge_of_retained
      rw [loop_body_debounced _ p3, loop_body_btn_prev, if_neg h32, loop_body_btn_state]
  exact ⟨v1, v2, by rw [display_of_no_edge _ p3 f3.1 f3.2, v2]⟩

/-! ## Independence from the upper bits of the samples -/

theorem low_agree_iff (a b : Nat) :
    low_agree a b = true ↔ bit a 0 = bit b 0 ∧ bit a 1 = bit b 1 := by
  simp [low_agree]

theorem same_low_step (sa sb : State) (a b : Nat) (h : same_low sa sb)
    (hl : low_agree a b = true) (hrep : a = sa.btn_prev ↔ b = sb.btn_prev) :
    same_low (loop_body sa a) (loop_body sb b) := by
  obtain ⟨hv, hs0, hs1, hb0, hb1⟩ := h
  obtain ⟨hl0, hl1⟩ := (low_agree_iff a b).1 hl
  have hd : bit (loop_body sa a).debounced 0 = bit (loop_body sb b).debounced 0 ∧
      bit (loop_body sa a).debounced 1 = bit (loop_body sb b).debounced 1 := by
    rw [loop_body_debounced, loop_body_debounced]
    by_cases ha : a = sa.btn_prev
    · rw [if_pos ha, if_pos (hrep.1 ha)]
      exact ⟨hl0, hl1⟩
    · rw [if_neg ha, if_neg (fun hb => ha (hrep.2 hb))]
      exact ⟨hb0, hb1⟩
  have hi : inc_fires sa a = inc_fires sb b := by
    rw [Bool.eq_iff_iff, inc_fires_iff, inc_fires_iff, hs0, hd.1]
  have hdec : dec_fires sa a = dec_fires sb b := by
    rw [Bool.eq_iff_iff, dec_fires_iff, dec_fires_iff, hs1, hd.2]
  refine ⟨?_, ?_, ?_, hd.1, hd.2⟩
  · rw [loop_body_display, loop_body_display, hi, hdec, hv]
  · rw [loop_body_btn_state, loop_body_btn_state]; exact hd.1
  · rw [loop_body_btn_state, loop_body_btn_state]; exact hd.2

theorem same_low_trace (as : List Nat) : ∀ (bs : List Nat) (sa sb : State),
    same_low sa sb → agree_low as bs = true →
    same_repeats_from sa.btn_prev sb.btn_prev as bs = true →
    (trace sa as).map State.display = (trace sb bs).map State.display := by
  induction as with
  | nil =>
    intro bs sa sb _ hl _
    cases bs with
    | nil => rfl
    | cons b bs => simp [agree_low] at hl
  | cons a as ih =>
    intro bs sa sb h hl hrep
    cases bs with
    | nil => simp [agree_low] at hl
    | cons b bs =>
      simp only [agree_low, Bool.and_eq_true] at hl
      simp only [same_repeats_from, Bool.and_eq_true, beq_iff_eq, decide_eq_decide] at hrep
      have hstep := same_low_step sa sb a b h hl.1 hrep.1
      have htail := ih bs (loop_body sa a) (loop_body sb b) hstep hl.2
        (by rw [loop_body_btn_prev, loop_body_btn_prev]; exact hrep.2)
      simp only [trace, List.map_cons, htail, hstep.1]

/-! ## The claims -/

/-- C1. Counter range invariant: starting from the initial state and for every finite
sequence of 32-bit raw samples fed to the loop body, the counter after every cycle
satisfies `0 ≤ counter ≤ 9999`. -/
theorem C1_counter_range (ps : List Nat) (_hps : ∀ p ∈ ps, is_sample p) :
    ∀ s ∈ trace init ps, 0 ≤ s.display ∧ s.display ≤ 9999 := by
  intro s hs
  exact ⟨Nat.zero_le _, trace_display_le ps init (by decide) s hs⟩

theorem C1_counter_range_witness :
    (∀ p ∈ [3, 3, 2, 2, 0xFFFFFFFF], is_sample p) ∧
      ∀ s ∈ trace init [3, 3, 2, 2, 0xFFFFFFFF], 0 ≤ s.display ∧ s.display ≤ 9999 :=
  ⟨by decide, C1_counter_range [3, 3, 2, 2, 0xFFFFFFFF] (by decide)⟩

/-- C2. Display round trip: for every `v` in `[0, 9999]`, taking the four nibbles
`d0` (bits 0-3), `d1` (bits 4-7), `d2` (bits 8-11), `d3` (bits 12-15) of the packed
value of `v` and forming `d0 + 10 d1 + 100 d2 + 1000 d3` gives back `v`. -/
theorem C2_display_round_trip (v : Nat) (hv : v ≤ 9999) :
    packed v % 16 + 10 * (packed v / 16 % 16) + 100 * (packed v / 256 % 16)
        + 1000 * (packed v / 4096 % 16) = v ∧
      decode (packed v) = v := by
  have key : packed v % 16 + 10 * (packed v / 16 % 16) + 100 * (packed v / 256 % 16)
      + 1000 * (packed v / 4096 % 16) = v := by
    obtain ⟨h0, h1, h2, h3⟩ := packed_nibbles v
    rw [h0, h1, h2, h3]
    exact digits_sum v hv
  refine ⟨key, ?_⟩
  simp only [decode, nibble]
  norm_num
  exact key

theorem C2_display_round_trip_witness :
    9870 ≤ 9999 ∧
      (packed 9870 % 16 + 10 * (packed 9870 / 16 % 16) + 100 * (packed 9870 / 256 % 16)
        + 1000 * (packed 9870 / 4096 % 16) = 9870 ∧
      decode (packed 9870) = 9870) :=
  ⟨by decide, C2_display_round_trip 9870 (by decide)⟩

/-- C3. Display encoding: for every `v` in `[0, 9999]` the packed value equals
`(v mod 10) + 16 ((v/10) mod 10) + 256 ((v/100) mod 10) + 4096 ((v/1000) mod 10)`, so
nibble `i` holds the `i`-th decimal digit, leading zeros included; the encoding
of 1234 is `0x1234`. -/
theorem C3_display_encoding (v : Nat) (_hv : v ≤ 9999) :
    packed v = v % 10 + 16 * (v / 10 % 10) + 256 * (v / 100 % 10) + 4096 * (v / 1000 % 10) ∧
      nibble (packed v) 0 = v % 10 ∧ nibble (packed v) 1 = v / 10 % 10 ∧
      nibble (packed v) 2 = v / 100 % 10 ∧ nibble (packed v) 3 = v / 1000 % 10 ∧
      packed 1234 = 0x1234 := by
  obtain ⟨h0, h1, h2, h3⟩ := packed_nibbles v
  refine ⟨packed_eq_sum v, ?_, ?_, ?_, ?_, by decide⟩
  · simpa [nibble] using h0
  · simpa [nibble] using h1
  · simpa [nibble] using h2
  · simpa [nibble] using h3

theorem C3_display_encoding_witness :
    7 ≤ 9999 ∧
      (packed 7 = 7 % 10 + 16 * (7 / 10 % 10) + 256 * (7 / 100 % 10) + 4096 * (7 / 1000 % 10) ∧
      nibble (packed 7) 0 = 7 % 10 ∧ nibble (packed 7) 1 = 7 / 10 % 10 ∧
      nibble (packed 7) 2 = 7 / 100 % 10 ∧ nibble (packed 7) 3 = 7 / 1000 % 10 ∧
      packed 1234 = 0x1234) :=
  ⟨by decide, C3_display_encoding 7 (by decide)⟩

/-- C4. Counter transitions: for every counter value `v` in `[0, 9999]` the increment
branch produces `(v + 1) mod 10000` and the decrement branch produces 9999 when
`v = 0` and `v - 1` otherwise; increment of 9999 gives 0 and decrement of 0 gives
9999. -/
theorem C4_counter_transitions (v : Nat) (hv : v ≤ 9999) :
    increment v = (v + 1) % 10000 ∧
      decrement v = (if v = 0 then 9999 else v - 1) ∧
      increment 9999 = 0 ∧ decrement 0 = 9999 := by
  refine ⟨?_, ?_, by decide, by decide⟩
  · unfold increment
    simp only
    split <;> omega
  · unfold decrement
    split <;> omega

theorem C4_counter_transitions_witness :
    9999 ≤ 9999 ∧
      (increment 9999 = (9999 + 1) % 10000 ∧
      decrement 9999 = (if 9999 = 0 then 9999 else 9999 - 1) ∧
      increment 9999 = 0 ∧ decrement 0 = 9999) :=
  ⟨by decide, C4_counter_transitions 9999 (by decide)⟩

set_option maxRecDepth 100000 in
/-- C5, as stated, fails.  After three presses of the increment button the loop is in
a reachable state with counter value 3.  Fed the raw samples `0b11, 0b11, 0b01, 0b01`,
it takes the increment branch in no cycle and the decrement branch in one, and the
counter ends at 2, not 4; the same happens when the four values are the stable
readings of the four cycles (raw samples `0b11, 0b01, 0b01, 0b01`). -/
theorem C5_edge_scenario_counterexample :
    (run init three_presses).display = 3 ∧
      inc_count (run init three_presses) [0b11, 0b11, 0b01, 0b01] = 0 ∧
      dec_count (run init three_presses) [0b11, 0b11, 0b01, 0b01] = 1 ∧
      (run (run init three_presses) [0b11, 0b11, 0b01, 0b01]).display = 2 ∧
      (trace (run init three_presses) [0b11, 0b01, 0b01, 0b01]).map State.debounced
        = [0b11, 0b11, 0b01, 0b01] ∧
      inc_count (run init three_presses) [0b11, 0b01, 0b01, 0b01] = 0 ∧
      dec_count (run init three_presses) [0b11, 0b01, 0b01, 0b01] = 1 ∧
      (run (run init three_presses) [0b11, 0b01, 0b01, 0b01]).display = 2 ∧
      ¬ (inc_count (run init three_presses) [0b11, 0b11, 0b01, 0b01] = 1 ∧
          dec_count (run init three_presses) [0b11, 0b11, 0b01, 0b01] = 0 ∧
          (run (run init three_presses) [0b11, 0b11, 0b01, 0b01]).display = 4) := by
  decide

set_option maxRecDepth 100000 in
/-- C5, amended.  From every reachable state with counter value 3, the four-cycle
sequence `0b11, 0b11, 0b01, 0b01` (bit 0 = increment line, bit 1 = decrement line,
both active-low) fires no increment edge and exactly one decrement edge, so the
counter ends at 2; this holds when the four values are the raw samples and also
when they are the stable readings of the four cycles.  The raw sequence
`0b11, 0b11, 0b10, 0b10` is the one that fires exactly one increment edge and no
decrement edge and ends at 4. -/
theorem C5_edge_scenario (s : State) (hr : Reachable s) (h3 : s.display = 3) :
    (inc_count s [0b11, 0b11, 0b01, 0b01] = 0 ∧ dec_count s [0b11, 0b11, 0b01, 0b01] = 1 ∧
        (run s [0b11, 0b11, 0b01, 0b01]).display = 2) ∧
      (∀ p1 p2 p3 p4 : Nat,
        (trace s [p1, p2, p3, p4]).map State.debounced = [0b11, 0b11, 0b01, 0b01] →
        inc_count s [p1, p2, p3, p4] = 0 ∧ dec_count s [p1, p2, p3, p4] = 1 ∧
          (run s [p1, p2, p3, p4]).display = 2) ∧
      (inc_count s [0b11, 0b11, 0b10, 0b10] = 1 ∧ dec_count s [0b11, 0b11, 0b10, 0b10] = 0 ∧
        (run s [0b11, 0b11, 0b10, 0b10]).display = 4) := by
  have hs := reachable_btn_state s hr
  have e1 := no_edge_of_read_released s hs
  have e2 := no_edge_of_released (loop_body s 3) 3
    (by rw [loop_body_debounced, loop_body_btn_prev, if_pos rfl])
  have hset := settle_released s hs
  rw [h3] at hset
  refine ⟨?_, ?_, ?_⟩
  · simp only [inc_count, dec_count, run, e1.1, e1.2, e2.1, e2.2, hset]
    decide
  · intro p1 p2 p3 p4 hst
    simp only [trace, List.map_cons, List.map_nil, List.cons.injEq, and_true] at hst
    obtain ⟨h1, h2, h3', h4⟩ := hst
    have b1 := loop_body_btn_state s p1
    have b2 := loop_body_btn_state (loop_body s p1) p2
    have b3 := loop_body_btn_state (loop_body (loop_body s p1) p2) p3
    have f1 := no_edge_of_released s p1 h1
    have f2 := no_edge_of_released (loop_body s p1) p2 h2
    have i3 : inc_fires (loop_body (loop_body s p1) p2) p3 = false := by
      rw [inc_fires_stable _ _ b2, h2, h3']; decide
    have d3 : dec_fires (loop_body (loop_body s p1) p2) p3 = true := by
      rw [dec_fires_stable _ _ b2, h2, h3']; decide
    have f4 := no_edge_of_retained (loop_body (loop_body (loop_body s p1) p2) p3) p4
      (by rw [h4, b3, h3'])
    have v1 := display_of_no_edge s p1 f1.1 f1.2
    have v2 := display_of_no_edge _ p2 f2.1 f2.2
    have v3 : (loop_body (loop_body (loop_body s p1) p2) p3).display = 2 := by
      rw [loop_body_display, i3, d3, v2, v1, h3]; decide
    have v4 := display_of_no_edge _ p4 f4.1 f4.2
    refine ⟨?_, ?_, ?_⟩
    · simp [inc_count, f1.1, f2.1, i3, f4.1]
    · simp [dec_count, f1.2, f2.2, d3, f4.2]
    · simp only [run]
      rw [v4, v3]
  · simp only [inc_count, dec_count, run, e1.1, e1.2, e2.1, e2.2, hset]
    decide

set_option maxRecDepth 100000 in
theorem C5_edge_scenario_witness :
    Reachable (run init three_presses) ∧ (run init three_presses).display = 3 ∧
      (inc_count (run init three_presses) [0b11, 0b11, 0b01, 0b01] = 0 ∧
        dec_count (run init three_presses) [0b11, 0b11, 0b01, 0b01] = 1 ∧
        (run (run init three_presses) [0b11, 0b11, 0b01, 0b01]).display = 2) :=
  ⟨reachable_run three_presses init Reachable.start (by decide), by decide,
    (C5_edge_scenario (run init three_presses)
      (reachable_run three_presses init Reachable.start (by decide)) (by decide)).1⟩

/-- C6. Debounce suppression: in every reachable state, if the raw sample `p` of a
cycle differs from the raw sample of the preceding cycle and the raw sample `q` of
the following cycle differs from `p`, then neither of the two cycles changes the
stable state or the counter, and neither takes an increment or decrement branch. -/
theorem C6_debounce_suppression (s : State) (hr : Reachable s) (p q : Nat)
    (_hp : is_sample p) (_hq : is_sample q) (h1 : p ≠ s.btn_prev) (h2 : q ≠ p) :
    ((loop_body s p).debounced = s.debounced ∧ (loop_body s p).display = s.display ∧
        inc_fires s p = false ∧ dec_fires s p = false) ∧
      ((loop_body (loop_body s p) q).debounced = s.debounced ∧
        (loop_body (loop_body s p) q).display = s.display ∧
        inc_fires (loop_body s p) q = false ∧ dec_fires (loop_body s p) q = false) := by
  have hs := reachable_btn_state s hr
  have a1 : (loop_body s p).debounced = s.debounced := by
    rw [loop_body_debounced, if_neg h1]
  have f1 := no_edge_of_retained s p (by rw [a1, hs])
  have v1 := display_of_no_edge s p f1.1 f1.2
  have a2 : (loop_body (loop_body s p) q).debounced = (loop_body s p).debounced := by
    rw [loop_body_debounced (loop_body s p) q, loop_body_btn_prev, if_neg h2]
  have f2 := no_edge_of_retained (loop_body s p) q (by rw [a2, loop_body_btn_state])
  have v2 := display_of_no_edge (loop_body s p) q f2.1 f2.2
  exact ⟨⟨a1, v1, f1.1, f1.2⟩, ⟨by rw [a2, a1], by rw [v2, v1], f2.1, f2.2⟩⟩

theorem C6_debounce_suppression_witness :
    Reachable (run init [3, 3]) ∧ is_sample 2 ∧ is_sample 3 ∧
      2 ≠ (run init [3, 3]).btn_prev ∧ 3 ≠ 2 ∧
      (((loop_body (run init [3, 3]) 2).debounced = (run init [3, 3]).debounced ∧
          (loop_body (run init [3, 3]) 2).display = (run init [3, 3]).display ∧
          inc_fires (run init [3, 3]) 2 = false ∧ dec_fires (run init [3, 3]) 2 = false) ∧
        ((loop_body (loop_body (run init [3, 3]) 2) 3).debounced = (run init [3, 3]).debounced ∧
          (loop_body (loop_body (run init [3, 3]) 2) 3).display = (run init [3, 3]).display ∧
          inc_fires (loop_body (run init [3, 3]) 2) 3 = false ∧
          dec_fires (loop_body (run init [3, 3]) 2) 3 = false)) :=
  ⟨reachable_run [3, 3] init Reachable.start (by decide), by decide, by decide, by decide,
    by decide,
    C6_debounce_suppression (run init [3, 3])
      (reachable_run [3, 3] init Reachable.start (by decide)) 2 3 (by decide) (by decide)
      (by decide) (by decide)⟩

/-- C7. Debounce acceptance rule: in every poll cycle with raw sample `p`, the stable
state after the cycle equals `p` if `p` agrees in all 32 bits with the raw sample of
the preceding cycle, and otherwise equals the stable state before the cycle; the
stored previous sample always becomes `p`. -/
theorem C7_debounce_acceptance (s : State) (hr : Reachable s) (p : Nat) (hp : is_sample p) :
    (loop_body s p).btn_prev = p ∧
      (loop_body s p).debounced = (if p = s.btn_prev then p else s.debounced) ∧
      ((∀ i < 32, bit p i = bit s.btn_prev i) → (loop_body s p).debounced = p) ∧
      (¬ (∀ i < 32, bit p i = bit s.btn_prev i) → (loop_body s p).debounced = s.debounced) := by
  refine ⟨loop_body_btn_prev s p, loop_body_debounced s p, ?_, ?_⟩
  · intro h
    have e : p = s.btn_prev := eq_of_bits p s.btn_prev hp (reachable_btn_prev s hr) h
    rw [loop_body_debounced, if_pos e]
  · intro h
    have e : p ≠ s.btn_prev := by
      intro e
      exact h (fun i _ => by rw [e])
    rw [loop_body_debounced, if_neg e]

theorem C7_debounce_acceptance_witness :
    Reachable (run init [2]) ∧ is_sample 2 ∧
      ((loop_body (run init [2]) 2).btn_prev = 2 ∧
        (loop_body (run init [2]) 2).debounced
          = (if 2 = (run init [2]).btn_prev then 2 else (run init [2]).debounced) ∧
        ((∀ i < 32, bit 2 i = bit (run init [2]).btn_prev i) →
          (loop_body (run init [2]) 2).debounced = 2) ∧
        (¬ (∀ i < 32, bit 2 i = bit (run init [2]).btn_prev i) →
          (loop_body (run init [2]) 2).debounced = (run init [2]).debounced)) :=
  ⟨reachable_run [2] init Reachable.start (by decide), by decide,
    C7_debounce_acceptance (run init [2])
      (reachable_run [2] init Reachable.start (by decide)) 2 (by decide)⟩

/-- C8. Edge detection rule: in every poll cycle from a reachable state, for each
button line separately (bit 0 = increment, bit 1 = decrement), the branch of that
line is taken, and its counter transition applied once, exactly when the bit is 1
in the stable state held over from the previous cycle and 0 in the stable state
accepted in this cycle; otherwise the transition is not applied. -/
theorem C8_edge_detection (s : State) (hr : Reachable s) (p : Nat) (_hp : is_sample p) :
    (inc_fires s p = true ↔ bit s.debounced 0 = 1 ∧ bit (loop_body s p).debounced 0 = 0) ∧
      (dec_fires s p = true ↔ bit s.debounced 1 = 1 ∧ bit (loop_body s p).debounced 1 = 0) ∧
      (loop_body s p).display =
        (if bit s.debounced 1 = 1 ∧ bit (loop_body s p).debounced 1 = 0 then
            decrement
              (if bit s.debounced 0 = 1 ∧ bit (loop_body s p).debounced 0 = 0 then
                increment s.display else s.display)
          else
            (if bit s.debounced 0 = 1 ∧ bit (loop_body s p).debounced 0 = 0 then
              increment s.display else s.display)) := by
  have hs := reachable_btn_state s hr
  have hi := inc_fires_stable s p hs
  have hd := dec_fires_stable s p hs
  refine ⟨?_, ?_, ?_⟩
  · rw [inc_fires_iff, hs]
  · rw [dec_fires_iff, hs]
  · rw [loop_body_display s p, hi, hd]
    simp only [decide_eq_true_eq]

set_option maxRecDepth 100000 in
theorem C8_edge_detection_witness :
    Reachable (run init [3, 3, 2]) ∧ is_sample 2 ∧
      inc_fires (run init [3, 3, 2]) 2 = true ∧ dec_fires (run init [3, 3, 2]) 2 = false ∧
      (loop_body (run init [3, 3, 2]) 2).display = 1 :=
  ⟨reachable_run [3, 3, 2] init Reachable.start (by decide), by decide,
    (C8_edge_detection (run init [3, 3, 2])
      (reachable_run [3, 3, 2] init Reachable.start (by decide)) 2 (by decide)).1.2
      (by decide),
    by decide, by decide⟩

/-- C9. Simultaneous edges: when both the increment branch and the decrement branch
are taken in one cycle with counter value `v` in `[0, 9999]`, the resulting counter
is `decrement (increment v)`, the decrement acting on the incremented value; for
`v = 5` the result is 5. -/
theorem C9_simultaneous_edges (s : State) (p : Nat) (_hv : s.display ≤ 9999)
    (hi : inc_fires s p = true) (hd : dec_fires s p = true) :
    (loop_body s p).display = decrement (increment s.display) ∧
      (s.display = 5 → (loop_body s p).display = 5) := by
  have e : (loop_body s p).display = decrement (increment s.display) := by
    rw [loop_body_display, hi, hd]
    simp
  refine ⟨e, ?_⟩
  intro h5
  rw [e, h5]
  decide

set_option maxRecDepth 100000 in
theorem C9_simultaneous_edges_witness :
    (run init five_presses_then_both).display ≤ 9999 ∧
      inc_fires (run init five_presses_then_both) 0 = true ∧
      dec_fires (run init five_presses_then_both) 0 = true ∧
      (run init five_presses_then_both).display = 5 ∧
      (loop_body (run init five_presses_then_both) 0).display = 5 :=
  ⟨by decide, by decide, by decide, by decide,
    (C9_simultaneous_edges (run init five_presses_then_both) 0 (by decide) (by decide)
      (by decide)).2 (by decide)⟩

/-- C10. No-edge idempotence: in every poll cycle in which neither the increment
branch nor the decrement branch is taken, the counter after the cycle equals the
counter before the cycle. -/
theorem C10_no_edge (s : State) (p : Nat) (hi : inc_fires s p = false)
    (hd : dec_fires s p = false) : (loop_body s p).display = s.display := by
  rw [loop_body_display, hi, hd]
  simp

set_option maxRecDepth 100000 in
theorem C10_no_edge_witness :
    inc_fires (run init [3, 3, 2, 2]) 2 = false ∧ dec_fires (run init [3, 3, 2, 2]) 2 = false ∧
      (loop_body (run init [3, 3, 2, 2]) 2).display = (run init [3, 3, 2, 2]).display :=
  ⟨by decide, by decide, C10_no_edge (run init [3, 3, 2, 2]) 2 (by decide) (by decide)⟩

/-- C11. Sentinel never emitted by the polling loop: in every cycle from every
reachable state, the value written to the display port has each of its four low
nibbles at most 9 and its upper 16 bits zero, so it is never the debug sentinel
`0xFFFF`. -/
theorem C11_sentinel_never_written (s : State) (_hr : Reachable s) (p : Nat)
    (_hp : is_sample p) :
    (∀ i < 4, nibble (loop_output s p).written i ≤ 9) ∧
      (loop_output s p).written / 2 ^ 16 = 0 ∧
      (loop_output s p).written < 2 ^ 32 ∧
      (loop_output s p).written ≠ 0xFFFF := by
  rw [loop_output_written]
  obtain ⟨h0, h1, h2, h3⟩ := packed_nibbles (loop_body s p).display
  have hlt := packed_lt (loop_body s p).display
  refine ⟨?_, ?_, ?_, ?_⟩
  · intro i hi
    interval_cases i
    · have : nibble (packed (loop_body s p).display) 0 = (loop_body s p).display % 10 := by
        simpa [nibble] using h0
      omega
    · have : nibble (packed (loop_body s p).display) 1 = (loop_body s p).display / 10 % 10 := by
        simpa [nibble] using h1
      omega
    · have : nibble (packed (loop_body s p).display) 2 = (loop_body s p).display / 100 % 10 := by
        simpa [nibble] using h2
      omega
    · have : nibble (packed (loop_body s p).display) 3
          = (loop_body s p).display / 1000 % 10 := by
        simpa [nibble] using h3
      omega
  · omega
  · omega
  · intro h
    rw [h] at h0
    omega

set_option maxRecDepth 100000 in
theorem C11_sentinel_never_written_witness :
    Reachable (run init [3, 3, 2]) ∧ is_sample 2 ∧
      ((∀ i < 4, nibble (loop_output (run init [3, 3, 2]) 2).written i ≤ 9) ∧
      (loop_output (run init [3, 3, 2]) 2).written / 2 ^ 16 = 0 ∧
      (loop_output (run init [3, 3, 2]) 2).written < 2 ^ 32 ∧
      (loop_output (run init [3, 3, 2]) 2).written ≠ 0xFFFF) :=
  ⟨reachable_run [3, 3, 2] init Reachable.start (by decide), by decide,
    C11_sentinel_never_written (run init [3, 3, 2])
      (reachable_run [3, 3, 2] init Reachable.start (by decide)) 2 (by decide)⟩

/-- C12, as stated, fails in the first cycle: from the initial state the cycle that
reads `0b11` leaves the counter at 0, yet a line reporting `(0, 0x0000)` is
logged, because `last_printed` starts at `0xFFFF`. -/
theorem C12_logging_counterexample :
    is_sample 3 ∧ (loop_body init 3).display = init.display ∧
      (loop_output init 3).logged = some (0, 0) ∧
      ¬ ((loop_output init 3).logged.isSome = true ↔
          (loop_body init 3).display ≠ init.display) := by
  decide

/-- C12, amended.  In every poll cycle of a run from the initial state other than
the first, a log line is emitted if and only if the counter at the end of the
cycle differs from the counter at its start; in the first cycle a line is always
emitted, with the counter still 0.  Whenever a line is emitted it reports the
new counter value and the packed value written in that cycle. -/
theorem C12_logging (s : State) (_hr : Reachable s) (q p : Nat) (_hq : is_sample q)
    (_hp : is_sample p) :
    ((loop_output (loop_body s q) p).logged.isSome = true ↔
        (loop_body (loop_body s q) p).display ≠ (loop_body s q).display) ∧
      (∀ l, (loop_output (loop_body s q) p).logged = some l →
        l = ((loop_body (loop_body s q) p).display, (loop_output (loop_body s q) p).written)) ∧
      (∀ l, (loop_output s p).logged = some l →
        l = ((loop_body s p).display, (loop_output s p).written)) ∧
      ((loop_output init p).logged = some (0, 0) ∧ (loop_output init p).written = 0 ∧
        (loop_body init p).display = init.display) := by
  refine ⟨?_, ?_, ?_, ?_⟩
  · rw [loop_output_logged, loop_body_last_printed s q]
    split <;> simp_all
  · intro l hl
    rw [loop_output_logged] at hl
    split at hl
    · exact (Option.some.inj hl).symm
    · exact absurd hl (by simp)
  · intro l hl
    rw [loop_output_logged] at hl
    split at hl
    · exact (Option.some.inj hl).symm
    · exact absurd hl (by simp)
  · have hv : (loop_body init p).display = 0 := by rw [first_cycle]
    have hw : (loop_output init p).written = 0 := by
      rw [loop_output_written, hv]; decide
    refine ⟨?_, hw, ?_⟩
    · rw [loop_output_logged, hw, hv]
      decide
    · rw [hv]; rfl

set_option maxRecDepth 100000 in
theorem C12_logging_witness :
    Reachable (run init [3, 3]) ∧ is_sample 2 ∧ is_sample 2 ∧
      (loop_output (loop_body (run init [3, 3]) 2) 2).logged = some (1, 1) ∧
      ((loop_output (loop_body (run init [3, 3]) 2) 2).logged.isSome = true ↔
        (loop_body (loop_body (run init [3, 3]) 2) 2).display
          ≠ (loop_body (run init [3, 3]) 2).display) :=
  ⟨reachable_run [3, 3] init Reachable.start (by decide), by decide, by decide, by decide,
    (C12_logging (run init [3, 3])
      (reachable_run [3, 3] init Reachable.start (by decide)) 2 2 (by decide) (by decide)).1⟩

set_option maxRecDepth 100000 in
/-- C14. Display tracks the counter: in every poll cycle the value written to the
display port is the display encoding of the counter after that cycle's increment
and decrement transitions, not of the counter before them; in the cycle that
counts the first press the write is the encoding of 1 while the counter before
the cycle is 0. -/
theorem C14_display_tracks_counter (s : State) (p : Nat) :
    (loop_output s p).written = packed (loop_body s p).display ∧
      ((run init [3, 3, 2]).display = 0 ∧ (loop_body (run init [3, 3, 2]) 2).display = 1 ∧
        (loop_output (run init [3, 3, 2]) 2).written = packed 1 ∧
        (loop_output (run init [3, 3, 2]) 2).written ≠ packed 0) :=
  ⟨loop_output_written s p, by decide⟩

/-- C13, as stated, fails.  The sequences `0b011, 0b011, 0b010, 0b010` and
`0b011, 0b011, 0b010, 0b110` agree on bits 0 and 1 in every cycle and differ only
in bit 2 of the last sample, yet the first run counts the press in the fourth cycle
and the second does not: the debounce test of line 77 compares whole words. -/
theorem C13_low_bits_counterexample :
    (∀ p ∈ [3, 3, 2, 2], is_sample p) ∧ (∀ p ∈ [3, 3, 2, 6], is_sample p) ∧
      agree_low [3, 3, 2, 2] [3, 3, 2, 6] = true ∧
      (trace init [3, 3, 2, 2]).map State.display = [0, 0, 0, 1] ∧
      (trace init [3, 3, 2, 6]).map State.display = [0, 0, 0, 0] ∧
      ¬ ((trace init [3, 3, 2, 2]).map State.display
          = (trace init [3, 3, 2, 6]).map State.display) := by
  decide

/-- C13, amended.  For any two raw sample sequences of equal length that agree on
bits 0 and 1 in every cycle and in which, from the second cycle on, a sample equals
its predecessor in one sequence exactly when it does in the other, the runs from
the initial state produce the same counter value after every cycle. -/
theorem C13_low_bits (as bs : List Nat) (_has : ∀ p ∈ as, is_sample p)
    (_hbs : ∀ p ∈ bs, is_sample p) (hl : agree_low as bs = true)
    (hrep : same_repeats as bs = true) :
    (trace init as).map State.display = (trace init bs).map State.display := by
  cases as with
  | nil =>
    cases bs with
    | nil => rfl
    | cons b bs => simp [agree_low] at hl
  | cons a as =>
    cases bs with
    | nil => simp [agree_low] at hl
    | cons b bs =>
      simp only [agree_low, Bool.and_eq_true] at hl
      simp only [same_repeats] at hrep
      have hsim : same_low (loop_body init a) (loop_body init b) := by
        rw [first_cycle, first_cycle]
        exact ⟨rfl, rfl, rfl, rfl, rfl⟩
      have htail := same_low_trace as bs (loop_body init a) (loop_body init b) hsim hl.2
        (by rw [loop_body_btn_prev, loop_body_btn_prev]; exact hrep)
      simp only [trace, List.map_cons, htail, hsim.1]

theorem C13_low_bits_witness :
    (∀ p ∈ [3, 3, 2, 2, 3], is_sample p) ∧ (∀ p ∈ [7, 7, 6, 6, 0xFFFFFFFF], is_sample p) ∧
      agree_low [3, 3, 2, 2, 3] [7, 7, 6, 6, 0xFFFFFFFF] = true ∧
      same_repeats [3, 3, 2, 2, 3] [7, 7, 6, 6, 0xFFFFFFFF] = true ∧
      (trace init [3, 3, 2, 2, 3]).map State.display
        = (trace init [7, 7, 6, 6, 0xFFFFFFFF]).map State.display :=
  ⟨by decide, by decide, by decide, by decide,
    C13_low_bits [3, 3, 2, 2, 3] [7, 7, 6, 6, 0xFFFFFFFF] (by decide) (by decide) (by decide)
      (by decide)⟩

/-- C15. Increment and decrement are mutual inverses on the valid range: for every
`v` in `[0, 9999]`, `decrement (increment v) = v` and `increment (decrement v) = v`;
hence a cycle in which both branches are taken leaves the counter unchanged, and its
result is the same in either order of the two transitions. -/
theorem C15_mutual_inverses (v : Nat) (hv : v ≤ 9999) :
    decrement (increment v) = v ∧ increment (decrement v) = v ∧
      ∀ (s : State) (p : Nat), s.display = v → inc_fires s p = true →
        dec_fires s p = true →
        (loop_body s p).display = v ∧ (loop_body s p).display = increment (decrement v) := by
  have h1 : decrement (increment v) = v := by
    unfold increment decrement
    simp only
    split <;> split <;> omega
  have h2 : increment (decrement v) = v := by
    unfold increment decrement
    simp only
    split <;> split <;> omega
  refine ⟨h1, h2, ?_⟩
  intro s p hs hi hd
  have e : (loop_body s p).display = decrement (increment s.display) := by
    rw [loop_body_display, hi, hd]
    simp
  rw [e, hs, h1, h2]
  exact ⟨rfl, rfl⟩

theorem C15_mutual_inverses_witness :
    9999 ≤ 9999 ∧
      (decrement (increment 9999) = 9999 ∧ increment (decrement 9999) = 9999 ∧
      ∀ (s : State) (p : Nat), s.display = 9999 → inc_fires s p = true →
        dec_fires s p = true →
        (loop_body s p).display = 9999 ∧
          (loop_body s p).display = increment (decrement 9999)) :=
  ⟨by decide, C15_mutual_inverses 9999 (by decide)⟩

/-- C16. One press counts once: from the initial state, for every `k ≥ 2` and
`n ≥ 2`, feeding `k` samples `0b11` followed by `n` samples `0b10` leaves the
counter at exactly 1. -/
theorem C16_one_press_counts_once (k n : Nat) (hk : 2 ≤ k) (hn : 2 ≤ n) :
    (run init (List.replicate k 0b11 ++ List.replicate n 0b10)).display = 1 := by
  obtain ⟨k, rfl⟩ := Nat.exists_eq_add_of_le' hk
  obtain ⟨n, rfl⟩ := Nat.exists_eq_add_of_le' hn
  have e1 : run init (List.replicate (k + 2) 3) = released_state := by
    show run (loop_body (loop_body init 3) 3) (List.replicate k 3) = released_state
    rw [show loop_body (loop_body init 3) 3 = released_state by decide]
    exact run_replicate_fixed released_state 3 (by decide) k
  have e2 : run released_state (List.replicate (n + 2) 2) = held_state := by
    show run (loop_body (loop_body released_state 2) 2) (List.replicate n 2) = held_state
    rw [show loop_body (loop_body released_state 2) 2 = held_state by decide]
    exact run_replicate_fixed held_state 2 (by decide) n
  rw [run_append, e1, e2]
  rfl

theorem C16_one_press_counts_once_witness :
    2 ≤ 2 ∧ 2 ≤ 5 ∧
      (run init (List.replicate 2 0b11 ++ List.replicate 5 0b10)).display = 1 :=
  ⟨by decide, by decide, C16_one_press_counts_once 2 5 (by decide) (by decide)⟩

/-- C17. No phantom count at startup: for every sequence of raw samples, the counter
is still 0 after each of the first three poll cycles from the initial state; the
fourth cycle is the first that can count. -/
theorem C17_no_phantom_count (ps : List Nat) (_hps : ∀ p ∈ ps, is_sample p) :
    (∀ s ∈ (trace init ps).take 3, s.display = 0) ∧
      (run init [0b11, 0b11, 0b10, 0b10]).display = 1 := by
  refine ⟨?_, by decide⟩
  intro s hs
  match ps, hs with
  | [], hs => simp [trace] at hs
  | [p1], hs =>
    simp only [trace, List.take, List.mem_singleton] at hs
    rw [hs]; exact (three_cycles p1 0 0).1
  | [p1, p2], hs =>
    simp only [trace, List.take, List.mem_cons, List.mem_singleton] at hs
    rcases hs with rfl | rfl | hs
    · exact (three_cycles p1 p2 0).1
    · exact (three_cycles p1 p2 0).2.1
    · simp at hs
  | p1 :: p2 :: p3 :: rest, hs =>
    simp only [trace, List.take, List.mem_cons] at hs
    rcases hs with rfl | rfl | rfl | hs
    · exact (three_cycles p1 p2 p3).1
    · exact (three_cycles p1 p2 p3).2.1
    · exact (three_cycles p1 p2 p3).2.2
    · simp at hs

theorem C17_no_phantom_count_witness :
    (∀ p ∈ [3, 3, 3, 2, 2], is_sample p) ∧
      ((∀ s ∈ (trace init [3, 3, 3, 2, 2]).take 3, s.display = 0) ∧
      (run init [0b11, 0b11, 0b10, 0b10]).display = 1) :=
  ⟨by decide, C17_no_phantom_count [3, 3, 3, 2, 2] (by decide)⟩

/-- C18. At the top of every poll cycle in every reachable state, the edge-detector
reference `btn_state` equals the stable state `debounced`; consequently a branch
can be taken only in a cycle whose raw sample equals the preceding raw sample and
differs from the previously accepted stable state. -/
theorem C18_reference_is_stable (s : State) (hr : Reachable s) :
    s.btn_state = s.debounced ∧
      ∀ p : Nat, (inc_fires s p = true ∨ dec_fires s p = true) →
        p = s.btn_prev ∧ p ≠ s.debounced := by
  have hs := reachable_btn_state s hr
  refine ⟨hs, ?_⟩
  intro p hfire
  have hno : ¬ ((loop_body s p).debounced = s.btn_state) := by
    intro h
    have := no_edge_of_retained s p h
    rcases hfire with hf | hf
    · rw [this.1] at hf; exact absurd hf (by decide)
    · rw [this.2] at hf; exact absurd hf (by decide)
  rw [loop_body_debounced] at hno
  by_cases hp : p = s.btn_prev
  · rw [if_pos hp, hs] at hno
    exact ⟨hp, hno⟩
  · rw [if_neg hp, hs] at hno
    exact absurd rfl hno

set_option maxRecDepth 100000 in
theorem C18_reference_is_stable_witness :
    Reachable (run init [3, 3, 2]) ∧
      ((run init [3, 3, 2]).btn_state = (run init [3, 3, 2]).debounced ∧
      ∀ p : Nat, (inc_fires (run init [3, 3, 2]) p = true ∨
          dec_fires (run init [3, 3, 2]) p = true) →
        p = (run init [3, 3, 2]).btn_prev ∧ p ≠ (run init [3, 3, 2]).debounced) :=
  ⟨reachable_run [3, 3, 2] init Reachable.start (by decide),
    C18_reference_is_stable (run init [3, 3, 2])
      (reachable_run [3, 3, 2] init Reachable.start (by decide))⟩

end Counter
